import Mathlib

/-!
Verification of the policy-approver decision core: a shallow embedding of the
policy evaluation and authorization engine (manager `Review`, the selection
predicates `Ready`, `IssuerRefSelector` and `RBACBound`, and the attribute
evaluator), together with theorems settling the specification claims.

Go maps to Lean as follows: machine state threaded through `context.Context`
and `client.Client` becomes explicit function arguments (`Client` bundles the
policy-listing call and the SubjectAccessReview creation call as pure
`Except`-valued functions); Go's `(value, error)` returns become
`Except String` (with `Review` returning the literal pair
`ReviewResponse × Option String`, since the Go code returns the zero
`ReviewResponse` next to a non-nil error); Go slices become `List`; Go string
maps become association lists.
-/

set_option maxRecDepth 16384

namespace PolicyApprover

namespace cmmeta

/-- Mirrors cmmeta.ObjectReference: an issuer reference (name, kind, group). -/
structure ObjectReference where
  name : String
  kind : String
  group : String
deriving DecidableEq, Repr

end cmmeta

namespace cmapi

/-- Mirrors the decoded content of a cmapi.CertificateRequest spec: the parsed
CSR attributes (common name, SANs, duration, CA flag, key parameters), the
issuer reference, and the requester identity (username, groups, UID, extra). -/
structure CertificateRequestSpec where
  commonName : String
  dnsNames : List String
  ipAddresses : List String
  uris : List String
  duration : Option Int
  isCA : Bool
  keyAlgorithm : String
  keySize : Int
  issuerRef : cmmeta.ObjectReference
  username : String
  groups : List String
  uid : String
  extra : List (String × List String)
deriving DecidableEq, Repr

/-- Mirrors cmapi.CertificateRequest: object metadata namespace plus spec. -/
structure CertificateRequest where
  nspace : String
  spec : CertificateRequestSpec
deriving DecidableEq, Repr

end cmapi

namespace cmpapi

/-- Mirrors cmpapi.CertificateRequestPolicyConditionReady. -/
def CertificateRequestPolicyConditionReady : String := "Ready"

/-- Mirrors corev1.ConditionTrue. -/
def ConditionTrue : String := "True"

/-- Mirrors cmpapi IssuerRefSelector: optional wildcard patterns on the
request's issuerRef name, kind and group; a nil field matches anything. -/
structure IssuerRefSelector where
  name : Option String
  kind : Option String
  group : Option String
deriving DecidableEq, Repr

/-- Mirrors cmpapi.PolicyPrivateKey: optional constraints on the request key. -/
structure PolicyPrivateKey where
  allowedAlgorithm : Option String
  allowedMinSize : Option Int
  allowedMaxSize : Option Int
deriving DecidableEq, Repr

/-- Mirrors cmpapi.CertificateRequestPolicySpec: each field is either unset
(no constraint) or a value/pattern to match, plus the issuerRefSelector used
for policy selection. -/
structure CertificateRequestPolicySpec where
  allowedCommonName : Option String
  minDuration : Option Int
  allowedDNSNames : Option (List String)
  allowedIPAddresses : Option (List String)
  allowedURIs : Option (List String)
  allowedIsCA : Option Bool
  allowedPrivateKey : Option PolicyPrivateKey
  allowedIssuers : Option (List cmmeta.ObjectReference)
  issuerRefSelector : IssuerRefSelector
deriving DecidableEq, Repr

/-- Mirrors cmpapi.CertificateRequestPolicyCondition (type and status). -/
structure CertificateRequestPolicyCondition where
  type : String
  status : String
deriving DecidableEq, Repr

/-- Mirrors cmpapi.CertificateRequestPolicyStatus. -/
structure CertificateRequestPolicyStatus where
  conditions : List CertificateRequestPolicyCondition
deriving DecidableEq, Repr

/-- Mirrors cmpapi.CertificateRequestPolicy: cluster-scoped named rule set. -/
structure CertificateRequestPolicy where
  name : String
  spec : CertificateRequestPolicySpec
  status : CertificateRequestPolicyStatus
deriving DecidableEq, Repr

end cmpapi

namespace internal

/-- Modelled from the spec: the repository's internal.WildcardMatchs helper is
not under src (only its call sites are).  Per the spec, a constraint is a
glob-style pattern where a star matches any run of characters and any other
character must match exactly.  The matcher recurses structurally on a fuel
counter; every step shortens the pattern or the value, so a fuel of
pattern length plus value length plus one is always sufficient. -/
def wildcardMatchFuel : Nat → List Char → List Char → Bool
  | 0, _, _ => false
  | fuel + 1, ps, ss =>
      match ps, ss with
      | [], [] => true
      | [], _ :: _ => false
      | '*' :: rest, [] => wildcardMatchFuel fuel rest []
      | '*' :: rest, s :: tail =>
          wildcardMatchFuel fuel rest (s :: tail)
            || wildcardMatchFuel fuel ('*' :: rest) tail
      | _ :: _, [] => false
      | p :: rest, s :: tail => p == s && wildcardMatchFuel fuel rest tail

/-- Modelled from the spec: glob matching on character lists, run with its
sufficient fuel. -/
def wildcardMatchList (ps ss : List Char) : Bool :=
  wildcardMatchFuel (ps.length + ss.length + 1) ps ss

/-- Modelled from the spec: internal.WildcardMatchs on strings; the pattern is
the first argument, the value the second. -/
def WildcardMatchs (pattern value : String) : Bool :=
  wildcardMatchList pattern.data value.data

end internal

namespace approver

/-- Mirrors approver.Result for evaluators: ResultNotDenied or ResultDenied. -/
inductive Result where
  | notDenied
  | denied
deriving DecidableEq, Repr

/-- Mirrors approver.EvaluationResponse: result of one evaluator against one
policy for one request. -/
structure EvaluationResponse where
  result : Result
  message : String
deriving DecidableEq, Repr

end approver

namespace authzv1

/-- Mirrors authzv1.ResourceAttributes as filled in by the RBAC-bound check. -/
structure ResourceAttributes where
  group : String
  resource : String
  name : String
  nspace : String
  verb : String
deriving DecidableEq, Repr

/-- Mirrors authzv1.SubjectAccessReviewSpec: requester identity plus the
resource attributes being checked. -/
structure SubjectAccessReviewSpec where
  user : String
  groups : List String
  extra : List (String × List String)
  uid : String
  resourceAttributes : ResourceAttributes
deriving DecidableEq, Repr

end authzv1

/-- An evaluator, as registered with the manager: Evaluate(ctx, policy,
request) returning an EvaluationResponse or an error. -/
def Evaluator : Type :=
  cmpapi.CertificateRequestPolicy → cmapi.CertificateRequest →
    Except String approver.EvaluationResponse

/-- The narrow slice of client.Client the decision core uses: List (returning
the full current CertificateRequestPolicyList or an error) and Create of a
SubjectAccessReview (returning Status.Allowed or an error). -/
structure Client where
  list : Except String (List cmpapi.CertificateRequestPolicy)
  create : authzv1.SubjectAccessReviewSpec → Except String Bool

namespace predicate

/-- Inner loops of predicate.Ready: for each policy, for each status
condition, append the policy whenever the condition has type Ready and status
True (one append per matching condition, exactly as the Go loop does). -/
def ReadyAppend (crp : cmpapi.CertificateRequestPolicy) :
    List cmpapi.CertificateRequestPolicyCondition →
      List cmpapi.CertificateRequestPolicy
  | [] => []
  | condition :: rest =>
      if condition.type == cmpapi.CertificateRequestPolicyConditionReady
          && condition.status == cmpapi.ConditionTrue then
        crp :: ReadyAppend crp rest
      else
        ReadyAppend crp rest

/-- Outer loop of predicate.Ready over the policy list. -/
def ReadyLoop : List cmpapi.CertificateRequestPolicy →
    List cmpapi.CertificateRequestPolicy
  | [] => []
  | crp :: rest => ReadyAppend crp crp.status.conditions ++ ReadyLoop rest

/-- Mirrors predicate.Ready: returns the policies that have a Ready condition
set to True; never errors. -/
def Ready (_cr : cmapi.CertificateRequest)
    (policies : List cmpapi.CertificateRequestPolicy) :
    Except String (List cmpapi.CertificateRequestPolicy) :=
  Except.ok (ReadyLoop policies)

/-- Loop of predicate.IssuerRefSelector: a policy is skipped when any selector
field is set and fails the wildcard match against the request's issuerRef. -/
def IssuerRefSelectorLoop (cr : cmapi.CertificateRequest) :
    List cmpapi.CertificateRequestPolicy →
      List cmpapi.CertificateRequestPolicy
  | [] => []
  | crp :: rest =>
      if (match crp.spec.issuerRefSelector.name with
            | some pat => internal.WildcardMatchs pat cr.spec.issuerRef.name
            | none => true)
          && (match crp.spec.issuerRefSelector.kind with
            | some pat => internal.WildcardMatchs pat cr.spec.issuerRef.kind
            | none => true)
          && (match crp.spec.issuerRefSelector.group with
            | some pat => internal.WildcardMatchs pat cr.spec.issuerRef.group
            | none => true) then
        crp :: IssuerRefSelectorLoop cr rest
      else
        IssuerRefSelectorLoop cr rest

/-- Mirrors predicate.IssuerRefSelector: returns the subset of policies whose
issuerRefSelector matches the request's issuerRef; never errors. -/
def IssuerRefSelector (cr : cmapi.CertificateRequest)
    (policies : List cmpapi.CertificateRequestPolicy) :
    Except String (List cmpapi.CertificateRequestPolicy) :=
  Except.ok (IssuerRefSelectorLoop cr policies)

/-- Loop of the predicate returned by predicate.RBACBound: for each policy,
create a SubjectAccessReview for verb "use" on the policy name with the
requester's identity; an error from Create aborts with a wrapped error, an
allowed review keeps the policy, a not-allowed review drops it silently. -/
def RBACBoundLoop (create : authzv1.SubjectAccessReviewSpec → Except String Bool)
    (cr : cmapi.CertificateRequest) :
    List cmpapi.CertificateRequestPolicy →
      Except String (List cmpapi.CertificateRequestPolicy)
  | [] => Except.ok []
  | crp :: rest =>
      match create
        { user := cr.spec.username
          groups := cr.spec.groups
          extra := cr.spec.extra
          uid := cr.spec.uid
          resourceAttributes :=
            { group := "policy.cert-manager.io"
              resource := "certificaterequestpolicies"
              name := crp.name
              nspace := cr.nspace
              verb := "use" } } with
      | Except.error err =>
          Except.error ("failed to create subjectaccessreview: " ++ err)
      | Except.ok allowed =>
          match RBACBoundLoop create cr rest with
          | Except.error err => Except.error err
          | Except.ok bound =>
              Except.ok (if allowed then crp :: bound else bound)

/-- Mirrors predicate.RBACBound: given the client's Create call, the predicate
that keeps the policies RBAC bound to the user in the request. -/
def RBACBound (create : authzv1.SubjectAccessReviewSpec → Except String Bool)
    (cr : cmapi.CertificateRequest)
    (policies : List cmpapi.CertificateRequestPolicy) :
    Except String (List cmpapi.CertificateRequestPolicy) :=
  RBACBoundLoop create cr policies

end predicate

namespace manager

/-- Mirrors the manager Result type; `unset` is the Go zero value carried by
the empty ReviewResponse returned next to an error. -/
inductive Result where
  | unset
  | unprocessed
  | approved
  | denied
deriving DecidableEq, Repr

/-- Mirrors manager.ReviewResponse. -/
structure ReviewResponse where
  result : Result
  message : String
deriving DecidableEq, Repr

/-- Mirrors the manager's policyMessage pair (policy name, joined evaluator
messages). -/
structure policyMessage where
  name : String
  message : String
deriving DecidableEq, Repr

/-- Mirrors manager issuerRefSelector (subjectaccessreview.go): the subset of
policies whose spec.issuerRefSelector matches the request's spec.issuerRef,
a policy being skipped when any selector field is set and fails the wildcard
match. -/
def issuerRefSelector (cr : cmapi.CertificateRequest) :
    List cmpapi.CertificateRequestPolicy →
      List cmpapi.CertificateRequestPolicy
  | [] => []
  | crp :: rest =>
      if (match crp.spec.issuerRefSelector.name with
            | some pat => internal.WildcardMatchs pat cr.spec.issuerRef.name
            | none => true)
          && (match crp.spec.issuerRefSelector.kind with
            | some pat => internal.WildcardMatchs pat cr.spec.issuerRef.kind
            | none => true)
          && (match crp.spec.issuerRefSelector.group with
            | some pat => internal.WildcardMatchs pat cr.spec.issuerRef.group
            | none => true) then
        crp :: issuerRefSelector cr rest
      else
        issuerRefSelector cr rest

/-- Loop of manager boundPolicies, instrumented with the sequence of
SubjectAccessReview specs the loop hands to client.Create: the first
component records, in order, every review created (stopping at the first
failing Create, exactly as the Go loop returns early); the second component
is the Go return value. -/
def boundPoliciesAux
    (create : authzv1.SubjectAccessReviewSpec → Except String Bool)
    (cr : cmapi.CertificateRequest) :
    List cmpapi.CertificateRequestPolicy →
      List authzv1.SubjectAccessReviewSpec ×
        Except String (List cmpapi.CertificateRequestPolicy)
  | [] => ([], Except.ok [])
  | crp :: rest =>
      let rev : authzv1.SubjectAccessReviewSpec :=
        { user := cr.spec.username
          groups := cr.spec.groups
          extra := cr.spec.extra
          uid := cr.spec.uid
          resourceAttributes :=
            { group := "policy.cert-manager.io"
              resource := "certificaterequestpolicies"
              name := crp.name
              nspace := cr.nspace
              verb := "use" } }
      match create rev with
      | Except.error err =>
          ([rev], Except.error ("failed to create subjectaccessreview: " ++ err))
      | Except.ok allowed =>
          let next := boundPoliciesAux create cr rest
          (rev :: next.1,
            match next.2 with
            | Except.error err => Except.error err
            | Except.ok bound =>
                Except.ok (if allowed then crp :: bound else bound))

/-- Mirrors manager boundPolicies: the subset of policies RBAC bound to the
user in the request, or the first Create error, wrapped. -/
def boundPolicies
    (create : authzv1.SubjectAccessReviewSpec → Except String Bool)
    (cr : cmapi.CertificateRequest)
    (allPolicies : List cmpapi.CertificateRequestPolicy) :
    Except String (List cmpapi.CertificateRequestPolicy) :=
  (boundPoliciesAux create cr allPolicies).2

/-- Mirrors the inner evaluator loop of Review: run every evaluator in order
against the policy; the first evaluator error aborts; otherwise return the
denied flag (set if any evaluator denied; no early break) and the collected
messages of all evaluators. -/
def runEvaluators (crp : cmpapi.CertificateRequestPolicy)
    (cr : cmapi.CertificateRequest) :
    List Evaluator → Except String (Bool × List String)
  | [] => Except.ok (false, [])
  | evaluator :: rest =>
      match evaluator crp cr with
      | Except.error err => Except.error err
      | Except.ok response =>
          match runEvaluators crp cr rest with
          | Except.error err => Except.error err
          | Except.ok (evaluatorDenied, evaluatorMessages) =>
              Except.ok
                ((response.result == approver.Result.denied) || evaluatorDenied,
                  response.message :: evaluatorMessages)

/-- Stable insertion of a policyMessage into a name-sorted list: the new
element goes after every element whose name is not greater, which is the
ordering sort.SliceStable with a strict name comparison produces. -/
def insertSorted (pm : policyMessage) :
    List policyMessage → List policyMessage
  | [] => [pm]
  | x :: xs =>
      if x.name < pm.name then x :: insertSorted pm xs else pm :: x :: xs

/-- Mirrors the sort.SliceStable call of Review: stable sort of the collected
policy messages by policy name. -/
def sortPolicyMessages : List policyMessage → List policyMessage
  | [] => []
  | pm :: rest => insertSorted pm (sortPolicyMessages rest)

/-- Mirrors the tail of Review after a denial scan: sort the policy messages
by name, bracket each as [name: message], and join with spaces into the final
Denied response. -/
def deniedResponse (policyMessages : List policyMessage) :
    ReviewResponse × Option String :=
  (⟨Result.denied,
      "No policy approved this request: " ++
        String.intercalate " "
          ((sortPolicyMessages policyMessages).map
            (fun pm => "[" ++ pm.name ++ ": " ++ pm.message ++ "]"))⟩,
    none)

/-- Mirrors the policy loop of Review: for each bound policy run every
evaluator; an evaluator error returns the empty response and the error; a
policy no evaluator denied returns Approved naming it; otherwise its joined
evaluator messages are appended and the loop continues, ending in the
aggregated Denied response. -/
def reviewPolicies (evaluators : List Evaluator)
    (cr : cmapi.CertificateRequest) :
    List cmpapi.CertificateRequestPolicy → List policyMessage →
      ReviewResponse × Option String
  | [], policyMessages => deniedResponse policyMessages
  | crp :: rest, policyMessages =>
      match runEvaluators crp cr evaluators with
      | Except.error err => (⟨Result.unset, ""⟩, some err)
      | Except.ok (evaluatorDenied, evaluatorMessages) =>
          if !evaluatorDenied then
            (⟨Result.approved,
                "Approved by CertificateRequestPolicy: \"" ++ crp.name ++ "\""⟩,
              none)
          else
            reviewPolicies evaluators cr rest
              (policyMessages ++
                [⟨crp.name, String.intercalate ", " evaluatorMessages⟩])

/-- Mirrors subjectaccessreview.Review: list all policies (an error aborts);
none at all is Unprocessed; select via issuerRefSelector then boundPolicies
(a boundPolicies error aborts, wrapped); none surviving is Unprocessed;
otherwise run the evaluator loop over the surviving policies. -/
def Review (s : Client) (evaluators : List Evaluator)
    (cr : cmapi.CertificateRequest) : ReviewResponse × Option String :=
  match s.list with
  | Except.error err => (⟨Result.unset, ""⟩, some err)
  | Except.ok items =>
      if items.length = 0 then
        (⟨Result.unprocessed, "No CertificateRequestPolicies exist"⟩, none)
      else
        match boundPolicies s.create cr (issuerRefSelector cr items) with
        | Except.error err =>
            (⟨Result.unset, ""⟩,
              some ("failed to determine bound policies: " ++ err))
        | Except.ok policies =>
            if policies.length = 0 then
              (⟨Result.unprocessed,
                  "No CertificateRequestPolicies bound or applicable"⟩, none)
            else
              reviewPolicies evaluators cr policies []

end manager

/-- The SubjectAccessReview spec the RBAC-bound loops build for one policy
name: the requester's identity from the request, and resource attributes for
verb "use" on that CertificateRequestPolicy name in the request namespace. -/
def sarSpecFor (cr : cmapi.CertificateRequest) (policyName : String) :
    authzv1.SubjectAccessReviewSpec :=
  { user := cr.spec.username
    groups := cr.spec.groups
    extra := cr.spec.extra
    uid := cr.spec.uid
    resourceAttributes :=
      { group := "policy.cert-manager.io"
        resource := "certificaterequestpolicies"
        name := policyName
        nspace := cr.nspace
        verb := "use" } }

/-- Whether the authorization check for a policy comes back allowed (an
erroring check counts as not allowed; it is only used under no-error
hypotheses). -/
def createAllowed (create : authzv1.SubjectAccessReviewSpec → Except String Bool)
    (cr : cmapi.CertificateRequest)
    (crp : cmpapi.CertificateRequestPolicy) : Bool :=
  match create (sarSpecFor cr crp.name) with
  | Except.ok allowed => allowed
  | Except.error _ => false

/-- The message of an evaluator outcome (empty for an error; only used under
no-error hypotheses). -/
def msgOf : Except String approver.EvaluationResponse → String
  | Except.ok response => response.message
  | Except.error _ => ""

/-- Whether an evaluator outcome denied (false for an error; only used under
no-error hypotheses). -/
def deniedOf : Except String approver.EvaluationResponse → Bool
  | Except.ok response => response.result == approver.Result.denied
  | Except.error _ => false

/-- The policyMessage entry Review collects for a consulted, denying policy:
its name with the comma-joined messages of all evaluators. -/
def mkPolicyMessage (evaluators : List Evaluator)
    (cr : cmapi.CertificateRequest)
    (crp : cmpapi.CertificateRequestPolicy) : manager.policyMessage :=
  ⟨crp.name,
    String.intercalate ", " (evaluators.map (fun e => msgOf (e crp cr)))⟩

/-- Replace a policy's status conditions, leaving name and spec unchanged. -/
def withConditions (conds : List cmpapi.CertificateRequestPolicyCondition)
    (crp : cmpapi.CertificateRequestPolicy) :
    cmpapi.CertificateRequestPolicy :=
  { crp with status := ⟨conds⟩ }

/-- How many of a policy's status conditions have type Ready and status True
(the predicate.Ready inner loop appends the policy once per such
condition). -/
def trueReadyCount (crp : cmpapi.CertificateRequestPolicy) : Nat :=
  (crp.status.conditions.filter
    (fun c => c.type == cmpapi.CertificateRequestPolicyConditionReady
        && c.status == cmpapi.ConditionTrue)).length

section Examples

/-- A selector with every field unset (matches any issuer reference). -/
def exSelectorAny : cmpapi.IssuerRefSelector := ⟨none, none, none⟩

/-- A policy spec with no constraints set and an unset selector. -/
def exSpecNone : cmpapi.CertificateRequestPolicySpec :=
  ⟨none, none, none, none, none, none, none, none, exSelectorAny⟩

/-- A policy named test-policy with no status conditions at all, so its
readiness condition is not true. -/
def exPolicy : cmpapi.CertificateRequestPolicy := ⟨"test-policy", exSpecNone, ⟨[]⟩⟩

/-- A policy carrying two Ready conditions with status True. -/
def exDup : cmpapi.CertificateRequestPolicy :=
  ⟨"dup", exSpecNone, ⟨[⟨"Ready", "True"⟩, ⟨"Ready", "True"⟩]⟩⟩

/-- A small concrete certificate request. -/
def exCr : cmapi.CertificateRequest :=
  ⟨"team-ns",
    ⟨"test", [], [], [], none, false, "RSA", 2048,
      ⟨"my-issuer", "my-kind", "my-group"⟩,
      "user-1", ["group-1"], "uid-1", [("k", ["v"])]⟩⟩

/-- An authorizer that allows every SubjectAccessReview. -/
def exAllow : authzv1.SubjectAccessReviewSpec → Except String Bool :=
  fun _ => Except.ok true

/-- An evaluator that never denies. -/
def exNotDeniedEval : Evaluator :=
  fun _ _ => Except.ok ⟨approver.Result.notDenied, ""⟩

/-- An evaluator that denies every policy, with a message naming it. -/
def exDenyEval : Evaluator :=
  fun crp _ => Except.ok ⟨approver.Result.denied, "bad-" ++ crp.name⟩

/-- An evaluator that always errors. -/
def exErrEval : Evaluator := fun _ _ => Except.error "evaluator-exploded"

/-- Policies for aggregation examples. -/
def exPolA : cmpapi.CertificateRequestPolicy := ⟨"a-pol", exSpecNone, ⟨[]⟩⟩

/-- Second aggregation example policy. -/
def exPolB : cmpapi.CertificateRequestPolicy := ⟨"b-pol", exSpecNone, ⟨[]⟩⟩

/-- Third example policy, whose authorization check errors under
exCreateMix. -/
def exPolC : cmpapi.CertificateRequestPolicy := ⟨"c-pol", exSpecNone, ⟨[]⟩⟩

/-- A policy with exactly one true Ready condition. -/
def exReady : cmpapi.CertificateRequestPolicy :=
  ⟨"ready-pol", exSpecNone, ⟨[⟨"Ready", "True"⟩]⟩⟩

/-- An authorizer that allows a-pol, refuses b-pol, and errors on anything
else. -/
def exCreateMix : authzv1.SubjectAccessReviewSpec → Except String Bool :=
  fun rev =>
    if rev.resourceAttributes.name == "a-pol" then Except.ok true
    else if rev.resourceAttributes.name == "b-pol" then Except.ok false
    else Except.error "boom"

/-- The multi-violation request of TestEvaluateCertificateRequest: common
name test, CA true, duration 100h, two DNS names, one IP, one URI, RSA key,
issuer my-issuer/my-kind/my-group. -/
def exCrViol : cmapi.CertificateRequest :=
  ⟨"team-ns",
    ⟨"test", ["foo.bar", "example.com"], ["1.2.3.4"], ["hello.world"],
      some 100, true, "RSA", 2048,
      ⟨"my-issuer", "my-kind", "my-group"⟩,
      "user-1", [], "uid-1", []⟩⟩

/-- The constraining policy of TestEvaluateCertificateRequest: every
constraint set and violated by exCrViol. -/
def exPolViol : cmpapi.CertificateRequestPolicy :=
  ⟨"pol",
    ⟨some "not-test", some 200, some ["not-foo.bar"], some ["5.6.7.8"],
      some ["world.hello"], some false, some ⟨some "ECDSA", none, none⟩,
      some [⟨"not-my-issuer", "not-my-kind", "not-my-group"⟩],
      exSelectorAny⟩, ⟨[]⟩⟩

end Examples

namespace attributeEvaluator

/-- Modelled from the spec: the attribute evaluator's Evaluate implementation
is not under src (only its test and registration are), so the evaluator is
modelled from spec section 4.2 and the expectations of
TestEvaluateCertificateRequest.  A violation names the policy field path, the
offending request value and the allowed value/pattern. -/
structure Violation where
  path : String
  actual : String
  allowed : String
deriving DecidableEq, Repr

/-- Modelled from the spec: render one violation entry, naming the field
path, the offending request value and the allowed value. -/
def formatViolation (v : Violation) : String :=
  v.path ++ ": Invalid value: " ++ v.actual ++ ": " ++ v.allowed

/-- Modelled from the spec: render a list of strings the way the test's
expected messages do, space separated inside square brackets. -/
def formatList (xs : List String) : String :=
  "[" ++ String.intercalate " " xs ++ "]"

/-- Modelled from the spec: render an issuer reference tuple. -/
def formatRef (ref : cmmeta.ObjectReference) : String :=
  "(" ++ ref.name ++ " " ++ ref.kind ++ " " ++ ref.group ++ ")"

/-- Modelled from the spec: a sequence constraint is satisfied only if every
element of the request's sequence matches at least one pattern of the
policy's allowed set. -/
def allMatchSome (patterns values : List String) : Bool :=
  values.all (fun v => patterns.any (fun p => internal.WildcardMatchs p v))

/-- Modelled from the spec: the request's issuer reference matches an allowed
issuer tuple pattern when each field wildcard-matches. -/
def refMatches (pat ref : cmmeta.ObjectReference) : Bool :=
  internal.WildcardMatchs pat.name ref.name
    && internal.WildcardMatchs pat.kind ref.kind
    && internal.WildcardMatchs pat.group ref.group

/-- Modelled from the spec: for each request field with a corresponding
policy constraint set, compute a violation if the field fails the constraint;
collect all violations without short-circuiting, in a fixed field order. -/
def attributeViolations (policy : cmpapi.CertificateRequestPolicySpec)
    (cr : cmapi.CertificateRequestSpec) : List Violation :=
  (match policy.allowedCommonName with
    | none => []
    | some pat =>
        if internal.WildcardMatchs pat cr.commonName then []
        else [⟨"spec.allowedCommonName", cr.commonName, pat⟩])
  ++ (match policy.minDuration, cr.duration with
    | some minD, some d =>
        if d < minD then
          [⟨"spec.minDuration", toString d, toString minD⟩]
        else []
    | _, _ => [])
  ++ (match policy.allowedDNSNames with
    | none => []
    | some patterns =>
        if allMatchSome patterns cr.dnsNames then []
        else [⟨"spec.allowedDNSNames", formatList cr.dnsNames,
               formatList patterns⟩])
  ++ (match policy.allowedIPAddresses with
    | none => []
    | some patterns =>
        if allMatchSome patterns cr.ipAddresses then []
        else [⟨"spec.allowedIPAddresses", formatList cr.ipAddresses,
               formatList patterns⟩])
  ++ (match policy.allowedURIs with
    | none => []
    | some patterns =>
        if allMatchSome patterns cr.uris then []
        else [⟨"spec.allowedURIs", formatList cr.uris, formatList patterns⟩])
  ++ (match policy.allowedIssuers with
    | none => []
    | some refs =>
        if refs.any (fun pat => refMatches pat cr.issuerRef) then []
        else [⟨"spec.allowedIssuers", formatRef cr.issuerRef,
               formatList (refs.map formatRef)⟩])
  ++ (match policy.allowedIsCA with
    | none => []
    | some isCA =>
        if isCA == cr.isCA then []
        else [⟨"spec.allowedIsCA", toString cr.isCA, toString isCA⟩])
  ++ (match policy.allowedPrivateKey with
    | none => []
    | some pk =>
        (match pk.allowedAlgorithm with
          | none => []
          | some alg =>
              if alg == cr.keyAlgorithm then []
              else [⟨"spec.allowedPrivateKey.allowedAlgorithm",
                     cr.keyAlgorithm, alg⟩])
        ++ (match pk.allowedMinSize with
          | none => []
          | some minSize =>
              if cr.keySize < minSize then
                [⟨"spec.allowedPrivateKey.allowedMinSize",
                  toString cr.keySize, toString minSize⟩]
              else [])
        ++ (match pk.allowedMaxSize with
          | none => []
          | some maxSize =>
              if maxSize < cr.keySize then
                [⟨"spec.allowedPrivateKey.allowedMaxSize",
                  toString cr.keySize, toString maxSize⟩]
              else []))

/-- Modelled from the spec: attribute.Evaluate returns NotDenied with an
empty message when no constraint is violated, and Denied with the joined,
stably ordered violation list otherwise.  The evaluator itself never errors,
matching the test's assert.NoError. -/
def Evaluate (policy : cmpapi.CertificateRequestPolicy)
    (cr : cmapi.CertificateRequest) : approver.EvaluationResponse :=
  let el := attributeViolations policy.spec cr.spec
  if el.isEmpty then
    ⟨approver.Result.notDenied, ""⟩
  else
    ⟨approver.Result.denied,
      String.intercalate ", " (el.map formatViolation)⟩

/-- The attribute evaluator packaged in the manager's Evaluator shape. -/
def evaluator : Evaluator :=
  fun policy cr => Except.ok (Evaluate policy cr)

end attributeEvaluator

section Lemmas

open List

/-- With enough fuel, a lone star pattern matches every character list. -/
lemma wildcardMatchFuel_star :
    ∀ (cs : List Char) (fuel : Nat), cs.length + 2 ≤ fuel →
      internal.wildcardMatchFuel fuel ['*'] cs = true := by
  intro cs
  induction cs with
  | nil =>
      intro fuel hfuel
      match fuel, hfuel with
      | f + 2, _ => rfl
  | cons c tail ih =>
      intro fuel hfuel
      match fuel, hfuel with
      | f + 1, hf =>
          have htail : internal.wildcardMatchFuel f ['*'] tail = true :=
            ih f (by simp only [List.length_cons] at hf; omega)
          simp [internal.wildcardMatchFuel, htail]

/-- A star pattern matches every character list. -/
lemma wildcardMatchList_star (cs : List Char) :
    internal.wildcardMatchList ['*'] cs = true := by
  rw [internal.wildcardMatchList]
  exact wildcardMatchFuel_star cs _
    (by rw [List.length_singleton]; omega)

/-- A star pattern matches every string. -/
lemma WildcardMatchs_star (s : String) :
    internal.WildcardMatchs "*" s = true := by
  have h : "*".data = ['*'] := rfl
  unfold internal.WildcardMatchs
  rw [h]
  exact wildcardMatchList_star s.data

/-- The manager's selector pass is the filter keeping a policy exactly when
each selector field is unset or wildcard-matches the request issuerRef. -/
lemma issuerRefSelector_eq_filter (cr : cmapi.CertificateRequest)
    (l : List cmpapi.CertificateRequestPolicy) :
    manager.issuerRefSelector cr l =
      l.filter (fun crp =>
        (crp.spec.issuerRefSelector.name.all
          (fun pat => internal.WildcardMatchs pat cr.spec.issuerRef.name))
        && (crp.spec.issuerRefSelector.kind.all
          (fun pat => internal.WildcardMatchs pat cr.spec.issuerRef.kind))
        && (crp.spec.issuerRefSelector.group.all
          (fun pat => internal.WildcardMatchs pat cr.spec.issuerRef.group))) := by
  induction l with
  | nil => rfl
  | cons crp rest ih =>
      have e1 : (match crp.spec.issuerRefSelector.name with
          | some pat => internal.WildcardMatchs pat cr.spec.issuerRef.name
          | none => true)
          = crp.spec.issuerRefSelector.name.all
              (fun pat => internal.WildcardMatchs pat cr.spec.issuerRef.name) := by
        cases crp.spec.issuerRefSelector.name <;> rfl
      have e2 : (match crp.spec.issuerRefSelector.kind with
          | some pat => internal.WildcardMatchs pat cr.spec.issuerRef.kind
          | none => true)
          = crp.spec.issuerRefSelector.kind.all
              (fun pat => internal.WildcardMatchs pat cr.spec.issuerRef.kind) := by
        cases crp.spec.issuerRefSelector.kind <;> rfl
      have e3 : (match crp.spec.issuerRefSelector.group with
          | some pat => internal.WildcardMatchs pat cr.spec.issuerRef.group
          | none => true)
          = crp.spec.issuerRefSelector.group.all
              (fun pat => internal.WildcardMatchs pat cr.spec.issuerRef.group) := by
        cases crp.spec.issuerRefSelector.group <;> rfl
      simp only [manager.issuerRefSelector, e1, e2, e3, List.filter_cons, ih]

/-- The selector pass never adds or duplicates a policy. -/
lemma issuerRefSelector_sublist (cr : cmapi.CertificateRequest)
    (l : List cmpapi.CertificateRequestPolicy) :
    (manager.issuerRefSelector cr l).Sublist l := by
  rw [issuerRefSelector_eq_filter]
  exact List.filter_sublist l

/-- The predicate-package selector loop is the manager's selector. -/
lemma IssuerRefSelectorLoop_eq (cr : cmapi.CertificateRequest)
    (l : List cmpapi.CertificateRequestPolicy) :
    predicate.IssuerRefSelectorLoop cr l = manager.issuerRefSelector cr l := by
  induction l with
  | nil => rfl
  | cons crp rest ih =>
      simp only [predicate.IssuerRefSelectorLoop, manager.issuerRefSelector, ih]

/-- One-step unfolding of boundPoliciesAux with the review spec named. -/
lemma boundPoliciesAux_cons
    (create : authzv1.SubjectAccessReviewSpec → Except String Bool)
    (cr : cmapi.CertificateRequest) (crp : cmpapi.CertificateRequestPolicy)
    (rest : List cmpapi.CertificateRequestPolicy) :
    manager.boundPoliciesAux create cr (crp :: rest) =
      match create (sarSpecFor cr crp.name) with
      | Except.error err =>
          ([sarSpecFor cr crp.name],
            Except.error ("failed to create subjectaccessreview: " ++ err))
      | Except.ok allowed =>
          (sarSpecFor cr crp.name :: (manager.boundPoliciesAux create cr rest).1,
            match (manager.boundPoliciesAux create cr rest).2 with
            | Except.error err => Except.error err
            | Except.ok bound =>
                Except.ok (if allowed then crp :: bound else bound)) := rfl

/-- One-step unfolding of the RBACBound loop with the review spec named. -/
lemma RBACBoundLoop_cons
    (create : authzv1.SubjectAccessReviewSpec → Except String Bool)
    (cr : cmapi.CertificateRequest) (crp : cmpapi.CertificateRequestPolicy)
    (rest : List cmpapi.CertificateRequestPolicy) :
    predicate.RBACBoundLoop create cr (crp :: rest) =
      match create (sarSpecFor cr crp.name) with
      | Except.error err =>
          Except.error ("failed to create subjectaccessreview: " ++ err)
      | Except.ok allowed =>
          match predicate.RBACBoundLoop create cr rest with
          | Except.error err => Except.error err
          | Except.ok bound =>
              Except.ok (if allowed then crp :: bound else bound) := rfl

/-- The predicate-package RBAC loop computes the manager's boundPolicies. -/
lemma RBACBoundLoop_eq
    (create : authzv1.SubjectAccessReviewSpec → Except String Bool)
    (cr : cmapi.CertificateRequest)
    (l : List cmpapi.CertificateRequestPolicy) :
    predicate.RBACBoundLoop create cr l =
      (manager.boundPoliciesAux create cr l).2 := by
  induction l with
  | nil => rfl
  | cons crp rest ih =>
      rw [RBACBoundLoop_cons, boundPoliciesAux_cons]
      cases hc : create (sarSpecFor cr crp.name) with
      | error err => rfl
      | ok allowed => rw [ih]

/-- When every authorization check succeeds, boundPoliciesAux issues exactly
one review per candidate policy, in order, and keeps exactly the allowed
policies. -/
lemma boundPoliciesAux_ok
    {create : authzv1.SubjectAccessReviewSpec → Except String Bool}
    {cr : cmapi.CertificateRequest}
    {l : List cmpapi.CertificateRequestPolicy}
    (h : ∀ p ∈ l, ∃ b, create (sarSpecFor cr p.name) = Except.ok b) :
    manager.boundPoliciesAux create cr l =
      (l.map (fun p => sarSpecFor cr p.name),
        Except.ok (l.filter (createAllowed create cr))) := by
  induction l with
  | nil => rfl
  | cons crp rest ih =>
      obtain ⟨b, hb⟩ := h crp (mem_cons_self crp rest)
      rw [boundPoliciesAux_cons, hb,
        ih (fun p hp => h p (mem_cons_of_mem _ hp))]
      have hca : createAllowed create cr crp = b := by
        simp [createAllowed, hb]
      simp only [List.map_cons, List.filter_cons, hca]

/-- The first failing authorization check aborts boundPoliciesAux with the
wrapped error, after issuing exactly the reviews up to and including it. -/
lemma boundPoliciesAux_error
    {create : authzv1.SubjectAccessReviewSpec → Except String Bool}
    {cr : cmapi.CertificateRequest}
    {l1 l2 : List cmpapi.CertificateRequestPolicy}
    {p : cmpapi.CertificateRequestPolicy} {err : String}
    (hpre : ∀ q ∈ l1, ∃ b, create (sarSpecFor cr q.name) = Except.ok b)
    (herr : create (sarSpecFor cr p.name) = Except.error err) :
    manager.boundPoliciesAux create cr (l1 ++ p :: l2) =
      (l1.map (fun q => sarSpecFor cr q.name) ++ [sarSpecFor cr p.name],
        Except.error ("failed to create subjectaccessreview: " ++ err)) := by
  induction l1 with
  | nil => simp [boundPoliciesAux_cons, herr]
  | cons q rest ih =>
      obtain ⟨b, hb⟩ := hpre q (mem_cons_self q rest)
      rw [List.cons_append, boundPoliciesAux_cons, hb,
        ih (fun x hx => hpre x (mem_cons_of_mem _ hx))]
      simp

/-- A successful boundPolicies run keeps exactly the allowed policies. -/
lemma boundPolicies_ok
    {create : authzv1.SubjectAccessReviewSpec → Except String Bool}
    {cr : cmapi.CertificateRequest}
    {l : List cmpapi.CertificateRequestPolicy}
    (h : ∀ p ∈ l, ∃ b, create (sarSpecFor cr p.name) = Except.ok b) :
    manager.boundPolicies create cr l =
      Except.ok (l.filter (createAllowed create cr)) := by
  rw [manager.boundPolicies, boundPoliciesAux_ok h]

/-- Whatever the authorizer does, a successful boundPolicies result is a
sublist of its input. -/
lemma boundPolicies_sublist
    {create : authzv1.SubjectAccessReviewSpec → Except String Bool}
    {cr : cmapi.CertificateRequest} :
    ∀ {l l' : List cmpapi.CertificateRequestPolicy},
      manager.boundPolicies create cr l = Except.ok l' → l'.Sublist l := by
  intro l
  induction l with
  | nil =>
      intro l' h
      cases h
      exact Sublist.refl []
  | cons crp rest ih =>
      intro l' h
      rw [manager.boundPolicies, boundPoliciesAux_cons] at h
      cases hc : create (sarSpecFor cr crp.name) with
      | error err => rw [hc] at h; cases h
      | ok allowed =>
          rw [hc] at h
          cases hr : (manager.boundPoliciesAux create cr rest).2 with
          | error err => rw [hr] at h; cases h
          | ok bound =>
              rw [hr] at h
              have hsub : bound.Sublist rest := ih hr
              cases h
              cases allowed with
              | false => simpa using hsub.cons crp
              | true => simpa using hsub.cons₂ crp

/-- The inner Ready loop appends the policy once per true Ready condition. -/
lemma ReadyAppend_eq_replicate (crp : cmpapi.CertificateRequestPolicy)
    (conds : List cmpapi.CertificateRequestPolicyCondition) :
    predicate.ReadyAppend crp conds =
      List.replicate
        ((conds.filter
          (fun c => c.type == cmpapi.CertificateRequestPolicyConditionReady
            && c.status == cmpapi.ConditionTrue)).length) crp := by
  induction conds with
  | nil => rfl
  | cons c cs ih =>
      by_cases hc : (c.type == cmpapi.CertificateRequestPolicyConditionReady
          && c.status == cmpapi.ConditionTrue) = true
      · simp [predicate.ReadyAppend, List.filter_cons, hc, ih,
          List.replicate_succ]
      · simp [predicate.ReadyAppend, List.filter_cons, hc, ih]

/-- Every policy the Ready predicate returns occurs in its input. -/
lemma mem_ReadyLoop {p : cmpapi.CertificateRequestPolicy} :
    ∀ {l : List cmpapi.CertificateRequestPolicy},
      p ∈ predicate.ReadyLoop l → p ∈ l := by
  intro l
  induction l with
  | nil => intro h; cases h
  | cons crp rest ih =>
      intro h
      rw [predicate.ReadyLoop, List.mem_append] at h
      rcases h with h | h
      · rw [ReadyAppend_eq_replicate] at h
        rw [List.eq_of_mem_replicate h]
        exact mem_cons_self crp rest
      · exact mem_cons_of_mem _ (ih h)

/-- When no policy carries more than one true Ready condition, the Ready
predicate returns a sublist of its input. -/
lemma ReadyLoop_sublist {l : List cmpapi.CertificateRequestPolicy}
    (h : ∀ p ∈ l, trueReadyCount p ≤ 1) :
    (predicate.ReadyLoop l).Sublist l := by
  induction l with
  | nil => exact Sublist.refl []
  | cons crp rest ih =>
      have hsub : (predicate.ReadyLoop rest).Sublist rest :=
        ih (fun p hp => h p (mem_cons_of_mem _ hp))
      rw [predicate.ReadyLoop, ReadyAppend_eq_replicate]
      have hcount := h crp (mem_cons_self crp rest)
      rw [trueReadyCount] at hcount
      interval_cases hk :
        (crp.status.conditions.filter
          (fun c => c.type == cmpapi.CertificateRequestPolicyConditionReady
            && c.status == cmpapi.ConditionTrue)).length
      · simpa using hsub.cons crp
      · simpa [List.replicate_succ] using hsub.cons₂ crp

/-- When every evaluator succeeds on a policy, the evaluator loop returns the
disjunction of their denials together with the messages of all of them (no
early break on a denial). -/
lemma runEvaluators_ok {evals : List Evaluator}
    {crp : cmpapi.CertificateRequestPolicy} {cr : cmapi.CertificateRequest}
    (h : ∀ e ∈ evals, ∃ r, e crp cr = Except.ok r) :
    manager.runEvaluators crp cr evals =
      Except.ok (evals.any (fun e => deniedOf (e crp cr)),
        evals.map (fun e => msgOf (e crp cr))) := by
  induction evals with
  | nil => rfl
  | cons e rest ih =>
      obtain ⟨r, hr⟩ := h e (mem_cons_self e rest)
      rw [manager.runEvaluators, hr,
        ih (fun x hx => h x (mem_cons_of_mem _ hx))]
      simp [deniedOf, msgOf, hr]

/-- The first erroring evaluator aborts the evaluator loop with its error,
provided the evaluators before it succeeded. -/
lemma runEvaluators_error {epre epost : List Evaluator} {ev : Evaluator}
    {crp : cmpapi.CertificateRequestPolicy} {cr : cmapi.CertificateRequest}
    {err : String}
    (hpre : ∀ e ∈ epre, ∃ r, e crp cr = Except.ok r)
    (he : ev crp cr = Except.error err) :
    manager.runEvaluators crp cr (epre ++ ev :: epost) = Except.error err := by
  induction epre with
  | nil => simp [manager.runEvaluators, he]
  | cons e rest ih =>
      obtain ⟨r, hr⟩ := hpre e (mem_cons_self e rest)
      rw [List.cons_append, manager.runEvaluators, hr,
        ih (fun x hx => hpre x (mem_cons_of_mem _ hx))]

/-- When every consulted policy is denied by some evaluator (and no evaluator
errors), the policy loop ends in the aggregated denied response over the
accumulated and freshly collected policy messages. -/
lemma reviewPolicies_denied {evals : List Evaluator}
    {cr : cmapi.CertificateRequest}
    {ps : List cmpapi.CertificateRequestPolicy}
    (h : ∀ p ∈ ps, manager.runEvaluators p cr evals =
      Except.ok (true, evals.map (fun e => msgOf (e p cr)))) :
    ∀ acc, manager.reviewPolicies evals cr ps acc =
      manager.deniedResponse (acc ++ ps.map (mkPolicyMessage evals cr)) := by
  induction ps with
  | nil => intro acc; simp [manager.reviewPolicies]
  | cons p rest ih =>
      intro acc
      have hp := h p (mem_cons_self p rest)
      rw [manager.reviewPolicies, hp]
      simp only [Bool.not_true, Bool.false_eq_true, if_false]
      rw [ih (fun q hq => h q (mem_cons_of_mem _ hq))]
      congr 1
      simp [mkPolicyMessage]

/-- The first policy no evaluator denies short-circuits the policy loop with
the Approved response naming it, provided the earlier policies were all
denied without evaluator errors. -/
lemma reviewPolicies_approved {evals : List Evaluator}
    {cr : cmapi.CertificateRequest}
    {pre post : List cmpapi.CertificateRequestPolicy}
    {p : cmpapi.CertificateRequestPolicy} {msgs : List String}
    (hpre : ∀ q ∈ pre, ∃ m, manager.runEvaluators q cr evals =
      Except.ok (true, m))
    (hp : manager.runEvaluators p cr evals = Except.ok (false, msgs)) :
    ∀ acc, manager.reviewPolicies evals cr (pre ++ p :: post) acc =
      (⟨manager.Result.approved,
        "Approved by CertificateRequestPolicy: \"" ++ p.name ++ "\""⟩,
        none) := by
  induction pre with
  | nil => intro acc; simp [manager.reviewPolicies, hp]
  | cons q rest ih =>
      intro acc
      obtain ⟨m, hm⟩ := hpre q (mem_cons_self q rest)
      rw [List.cons_append, manager.reviewPolicies, hm]
      simp only [Bool.not_true, Bool.false_eq_true, if_false]
      exact ih (fun x hx => hpre x (mem_cons_of_mem _ hx)) _

/-- The first erroring evaluator run aborts the policy loop with the empty
response and that error, provided the earlier policies were all denied
without evaluator errors. -/
lemma reviewPolicies_error {evals : List Evaluator}
    {cr : cmapi.CertificateRequest}
    {pre post : List cmpapi.CertificateRequestPolicy}
    {p : cmpapi.CertificateRequestPolicy} {err : String}
    (hpre : ∀ q ∈ pre, ∃ m, manager.runEvaluators q cr evals =
      Except.ok (true, m))
    (hp : manager.runEvaluators p cr evals = Except.error err) :
    ∀ acc, manager.reviewPolicies evals cr (pre ++ p :: post) acc =
      (⟨manager.Result.unset, ""⟩, some err) := by
  induction pre with
  | nil => intro acc; simp [manager.reviewPolicies, hp]
  | cons q rest ih =>
      intro acc
      obtain ⟨m, hm⟩ := hpre q (mem_cons_self q rest)
      rw [List.cons_append, manager.reviewPolicies, hm]
      simp only [Bool.not_true, Bool.false_eq_true, if_false]
      exact ih (fun x hx => hpre x (mem_cons_of_mem _ hx)) _

/-- The policy loop never produces the Unprocessed result. -/
lemma reviewPolicies_ne_unprocessed {evals : List Evaluator}
    {cr : cmapi.CertificateRequest} :
    ∀ (ps : List cmpapi.CertificateRequestPolicy) acc,
      (manager.reviewPolicies evals cr ps acc).1.result ≠
        manager.Result.unprocessed := by
  intro ps
  induction ps with
  | nil => intro acc; simp [manager.reviewPolicies, manager.deniedResponse]
  | cons p rest ih =>
      intro acc
      rw [manager.reviewPolicies]
      cases hr : manager.runEvaluators p cr evals with
      | error err => simp
      | ok pr =>
          obtain ⟨d, m⟩ := pr
          cases d with
          | false => simp
          | true => simpa using ih _

/-- Under error-free evaluators, the policy loop approves exactly when some
policy in the list is denied by no evaluator. -/
lemma reviewPolicies_approved_iff {evals : List Evaluator}
    {cr : cmapi.CertificateRequest}
    {ps : List cmpapi.CertificateRequestPolicy}
    (hOk : ∀ p ∈ ps, ∀ e ∈ evals, ∃ r, e p cr = Except.ok r) :
    ∀ acc, ((manager.reviewPolicies evals cr ps acc).1.result =
        manager.Result.approved ↔
      ∃ p ∈ ps, evals.any (fun e => deniedOf (e p cr)) = false) := by
  induction ps with
  | nil =>
      intro acc
      simp [manager.reviewPolicies, manager.deniedResponse]
  | cons p rest ih =>
      intro acc
      have hp := runEvaluators_ok (hOk p (mem_cons_self p rest))
      rw [manager.reviewPolicies, hp]
      cases hd : evals.any (fun e => deniedOf (e p cr)) with
      | false =>
          simp only [Bool.not_false, if_true]
          constructor
          · intro _
            exact ⟨p, mem_cons_self p rest, hd⟩
          · intro _
            trivial
      | true =>
          simp only [Bool.not_true, Bool.false_eq_true, if_false]
          rw [ih (fun q hq => hOk q (mem_cons_of_mem _ hq)) _]
          constructor
          · rintro ⟨q, hq, hqd⟩
            exact ⟨q, mem_cons_of_mem _ hq, hqd⟩
          · rintro ⟨q, hq, hqd⟩
            rcases mem_cons.mp hq with rfl | hq'
            · rw [hd] at hqd; cases hqd
            · exact ⟨q, hq', hqd⟩

/-- Under error-free evaluators on one policy, no evaluator flagging a denial
is the same as every evaluator returning NotDenied. -/
lemma any_denied_false_iff {evals : List Evaluator}
    {p : cmpapi.CertificateRequestPolicy} {cr : cmapi.CertificateRequest}
    (hOk : ∀ e ∈ evals, ∃ r, e p cr = Except.ok r) :
    (evals.any (fun e => deniedOf (e p cr)) = false) ↔
      ∀ e ∈ evals, ∀ r, e p cr = Except.ok r →
        r.result = approver.Result.notDenied := by
  rw [List.any_eq_false]
  constructor
  · intro h e he r hr
    have hd := h e he
    rw [hr] at hd
    simp only [deniedOf, beq_iff_eq] at hd
    cases hres : r.result with
    | notDenied => rfl
    | denied => rw [hres] at hd; simp at hd
  · intro h e he
    obtain ⟨r, hr⟩ := hOk e he
    have hres := h e he r hr
    rw [hr]
    simp [deniedOf, hres]

/-- Inserting into the stable sort permutes consing. -/
lemma insertSorted_perm (pm : manager.policyMessage) :
    ∀ l, (manager.insertSorted pm l).Perm (pm :: l) := by
  intro l
  induction l with
  | nil => exact Perm.refl _
  | cons x xs ih =>
      rw [manager.insertSorted]
      by_cases h : x.name < pm.name
      · rw [if_pos h]
        exact (ih.cons x).trans (Perm.swap pm x xs)
      · rw [if_neg h]

/-- The stable sort permutes its input. -/
lemma sortPolicyMessages_perm :
    ∀ l, (manager.sortPolicyMessages l).Perm l := by
  intro l
  induction l with
  | nil => exact Perm.refl _
  | cons pm rest ih =>
      rw [manager.sortPolicyMessages]
      exact (insertSorted_perm pm _).trans (ih.cons pm)

/-- Sortedness by policy name, non-strictly. -/
def NameSorted (l : List manager.policyMessage) : Prop :=
  l.Pairwise (fun a b => a.name ≤ b.name)

/-- Insertion preserves sortedness by name. -/
lemma insertSorted_sorted {pm : manager.policyMessage} :
    ∀ {l}, NameSorted l → NameSorted (manager.insertSorted pm l) := by
  intro l
  induction l with
  | nil =>
      intro _
      simp [manager.insertSorted, NameSorted]
  | cons x xs ih =>
      intro h
      rw [NameSorted, pairwise_cons] at h
      rw [manager.insertSorted]
      by_cases hx : x.name < pm.name
      · rw [if_pos hx, NameSorted, pairwise_cons]
        constructor
        · intro b hb
          rcases (mem_cons.mp ((insertSorted_perm pm xs).mem_iff.mp hb))
            with rfl | hb'
          · exact le_of_lt hx
          · exact h.1 b hb'
        · exact ih h.2
      · rw [if_neg hx, NameSorted, pairwise_cons]
        have hpx : pm.name ≤ x.name := le_of_not_lt hx
        constructor
        · intro b hb
          rcases mem_cons.mp hb with rfl | hb'
          · exact hpx
          · exact le_trans hpx (h.1 b hb')
        · exact pairwise_cons.mpr h

/-- The stable sort sorts by name. -/
lemma sortPolicyMessages_sorted :
    ∀ l, NameSorted (manager.sortPolicyMessages l) := by
  intro l
  induction l with
  | nil => simp [manager.sortPolicyMessages, NameSorted]
  | cons pm rest ih =>
      rw [manager.sortPolicyMessages]
      exact insertSorted_sorted ih

/-- Two name-sorted permutations of each other with pairwise distinct names
are equal. -/
lemma sorted_perm_nodup_eq :
    ∀ {l1 l2 : List manager.policyMessage}, l1.Perm l2 →
      NameSorted l1 → NameSorted l2 →
      (l1.map (fun pm => pm.name)).Nodup → l1 = l2 := by
  intro l1
  induction l1 with
  | nil =>
      intro l2 hperm _ _ _
      exact (hperm.symm.eq_nil).symm
  | cons a t1 ih =>
      intro l2 hperm hs1 hs2 hnd
      cases l2 with
      | nil => cases hperm.eq_nil
      | cons b t2 =>
          have hab : a = b := by
            by_contra hne
            have ha2 : a ∈ t2 := by
              rcases mem_cons.mp (hperm.mem_iff.mp (mem_cons_self a t1))
                with h | h
              · exact absurd h hne
              · exact h
            have hb1 : b ∈ t1 := by
              rcases mem_cons.mp (hperm.mem_iff.mpr (mem_cons_self b t2))
                with h | h
              · exact absurd h.symm hne
              · exact h
            have h1 : a.name ≤ b.name :=
              (pairwise_cons.mp hs1).1 b hb1
            have h2 : b.name ≤ a.name :=
              (pairwise_cons.mp hs2).1 a ha2
            have hname : b.name = a.name := le_antisymm h2 h1
            rw [List.map_cons, nodup_cons] at hnd
            exact hnd.1 (hname ▸ List.mem_map_of_mem (fun pm => pm.name) hb1)
          subst hab
          have ht : t1.Perm t2 := hperm.cons_inv
          rw [ih ht (pairwise_cons.mp hs1).2 (pairwise_cons.mp hs2).2
            (by rw [List.map_cons, nodup_cons] at hnd; exact hnd.2)]

/-- The stable sort is a function of the multiset of entries when names are
pairwise distinct. -/
lemma sortPolicyMessages_eq_of_perm
    {l1 l2 : List manager.policyMessage} (hperm : l1.Perm l2)
    (hnd : (l1.map (fun pm => pm.name)).Nodup) :
    manager.sortPolicyMessages l1 = manager.sortPolicyMessages l2 := by
  apply sorted_perm_nodup_eq
  · exact ((sortPolicyMessages_perm l1).trans hperm).trans
      (sortPolicyMessages_perm l2).symm
  · exact sortPolicyMessages_sorted l1
  · exact sortPolicyMessages_sorted l2
  · exact (((sortPolicyMessages_perm l1).map (fun pm => pm.name)).nodup_iff).mpr
      hnd

/-- Replacing status conditions commutes with the manager's selector pass,
which reads only spec fields. -/
lemma issuerRefSelector_map_withConditions
    (conds : List cmpapi.CertificateRequestPolicyCondition)
    (cr : cmapi.CertificateRequest) :
    ∀ l, manager.issuerRefSelector cr (l.map (withConditions conds)) =
      (manager.issuerRefSelector cr l).map (withConditions conds) := by
  intro l
  induction l with
  | nil => rfl
  | cons crp rest ih =>
      rw [List.map_cons, manager.issuerRefSelector, manager.issuerRefSelector,
        ih]
      have hspec : (withConditions conds crp).spec = crp.spec := rfl
      rw [hspec]
      split_ifs <;> rfl

/-- Replacing status conditions commutes with boundPolicies, which reads only
policy names. -/
lemma boundPolicies_map_withConditions
    (conds : List cmpapi.CertificateRequestPolicyCondition)
    (create : authzv1.SubjectAccessReviewSpec → Except String Bool)
    (cr : cmapi.CertificateRequest) :
    ∀ l, manager.boundPolicies create cr (l.map (withConditions conds)) =
      Except.map (List.map (withConditions conds))
        (manager.boundPolicies create cr l) := by
  intro l
  induction l with
  | nil => rfl
  | cons crp rest ih =>
      rw [List.map_cons, manager.boundPolicies, manager.boundPolicies,
        boundPoliciesAux_cons, boundPoliciesAux_cons]
      have hname : (withConditions conds crp).name = crp.name := rfl
      rw [hname]
      cases hc : create (sarSpecFor cr crp.name) with
      | error err => rfl
      | ok allowed =>
          rw [manager.boundPolicies, manager.boundPolicies] at ih
          rw [ih]
          cases hr : (manager.boundPoliciesAux create cr rest).2 with
          | error err => rfl
          | ok bound => cases allowed <;> rfl

/-- Replacing status conditions is invisible to the evaluator loop when every
evaluator is insensitive to them. -/
lemma runEvaluators_withConditions
    {conds : List cmpapi.CertificateRequestPolicyCondition}
    {evals : List Evaluator}
    (hE : ∀ e ∈ evals, ∀ p cr', e (withConditions conds p) cr' = e p cr')
    (crp : cmpapi.CertificateRequestPolicy) (cr : cmapi.CertificateRequest) :
    manager.runEvaluators (withConditions conds crp) cr evals =
      manager.runEvaluators crp cr evals := by
  induction evals with
  | nil => rfl
  | cons e rest ih =>
      rw [manager.runEvaluators, manager.runEvaluators,
        hE e (mem_cons_self e rest) crp cr,
        ih (fun x hx => hE x (mem_cons_of_mem _ hx))]

/-- Replacing status conditions is invisible to the policy loop when every
evaluator is insensitive to them. -/
lemma reviewPolicies_withConditions
    {conds : List cmpapi.CertificateRequestPolicyCondition}
    {evals : List Evaluator}
    (hE : ∀ e ∈ evals, ∀ p cr', e (withConditions conds p) cr' = e p cr')
    (cr : cmapi.CertificateRequest) :
    ∀ ps acc, manager.reviewPolicies evals cr
        (ps.map (withConditions conds)) acc =
      manager.reviewPolicies evals cr ps acc := by
  intro ps
  induction ps with
  | nil => intro acc; rfl
  | cons p rest ih =>
      intro acc
      rw [List.map_cons, manager.reviewPolicies, manager.reviewPolicies,
        runEvaluators_withConditions hE p cr]
      cases hr : manager.runEvaluators p cr evals with
      | error err => rfl
      | ok pr =>
          obtain ⟨d, m⟩ := pr
          cases d with
          | false => rfl
          | true =>
              simp only [Bool.not_true, Bool.false_eq_true, if_false]
              have hname : (withConditions conds p).name = p.name := rfl
              rw [hname, ih]

end Lemmas

section Theorems

open List

/-- C10: the manager's private selection functions are behaviorally
equivalent to the public predicates: for every request and policy list,
predicate.IssuerRefSelector returns exactly (ok of) the list the manager's
issuerRefSelector computes, and the predicate returned by predicate.RBACBound
applied to the same client Create call returns exactly the value (list or
error) of the manager's boundPolicies. -/
theorem C10_manager_selection_equals_predicates :
    ∀ (create : authzv1.SubjectAccessReviewSpec → Except String Bool)
      (cr : cmapi.CertificateRequest)
      (l : List cmpapi.CertificateRequestPolicy),
      predicate.IssuerRefSelector cr l =
        Except.ok (manager.issuerRefSelector cr l) ∧
      predicate.RBACBound create cr l = manager.boundPolicies create cr l := by
  intro create cr l
  constructor
  · rw [predicate.IssuerRefSelector, IssuerRefSelectorLoop_eq]
  · rw [predicate.RBACBound, RBACBoundLoop_eq, manager.boundPolicies]

/-- C8: the issuer-reference selector keeps a policy exactly when each of the
selector's name, kind and group fields is unset (Option.all of none is true,
matching anything) or wildcard-matches the corresponding field of the
request's issuer reference; and the star pattern matches any string. -/
theorem C8_issuer_selector_match_semantics :
    (∀ (cr : cmapi.CertificateRequest)
      (l : List cmpapi.CertificateRequestPolicy),
      manager.issuerRefSelector cr l =
        l.filter (fun crp =>
          (crp.spec.issuerRefSelector.name.all
            (fun pat => internal.WildcardMatchs pat cr.spec.issuerRef.name))
          && (crp.spec.issuerRefSelector.kind.all
            (fun pat => internal.WildcardMatchs pat cr.spec.issuerRef.kind))
          && (crp.spec.issuerRefSelector.group.all
            (fun pat => internal.WildcardMatchs pat cr.spec.issuerRef.group))))
    ∧ (∀ s : String, internal.WildcardMatchs "*" s = true) :=
  ⟨issuerRefSelector_eq_filter, WildcardMatchs_star⟩

/-- C7 counterexample: the Ready predicate applied to a single policy that
carries two Ready conditions with status True returns that policy twice, so
its output is not a sub-multiset of its input, refuting the claim that no
predicate ever duplicates a policy. -/
theorem C7_ready_duplicates_counterexample :
    predicate.Ready exCr [exDup] = Except.ok [exDup, exDup] ∧
    ¬ (predicate.ReadyLoop [exDup]).count exDup ≤ ([exDup].count exDup) := by
  constructor
  · rfl
  · decide

/-- C7 (amended): every selection predicate only returns policies occurring
in its input and never adds one; IssuerRefSelector and RBACBound return
sublists (hence sub-multisets) of their input, and so does Ready whenever no
input policy carries more than one true Ready condition — but Ready
duplicates a policy carrying several true Ready conditions, so for it the
sub-multiset property needs that hypothesis. -/
theorem C7_predicates_never_add_policies :
    (∀ (cr : cmapi.CertificateRequest)
      (l l' : List cmpapi.CertificateRequestPolicy),
      predicate.Ready cr l = Except.ok l' →
        (∀ p ∈ l', p ∈ l) ∧
        ((∀ p ∈ l, trueReadyCount p ≤ 1) → l'.Sublist l))
    ∧ (∀ (cr : cmapi.CertificateRequest)
        (l : List cmpapi.CertificateRequestPolicy),
        (manager.issuerRefSelector cr l).Sublist l)
    ∧ (∀ (cr : cmapi.CertificateRequest)
        (l l' : List cmpapi.CertificateRequestPolicy),
        predicate.IssuerRefSelector cr l = Except.ok l' → l'.Sublist l)
    ∧ (∀ (create : authzv1.SubjectAccessReviewSpec → Except String Bool)
        (cr : cmapi.CertificateRequest)
        (l l' : List cmpapi.CertificateRequestPolicy),
        predicate.RBACBound create cr l = Except.ok l' → l'.Sublist l) := by
  refine ⟨?_, ?_, ?_, ?_⟩
  · intro cr l l' h
    rw [predicate.Ready] at h
    cases h
    exact ⟨fun p hp => mem_ReadyLoop hp, fun hc => ReadyLoop_sublist hc⟩
  · intro cr l
    exact issuerRefSelector_sublist cr l
  · intro cr l l' h
    rw [predicate.IssuerRefSelector] at h
    cases h
    rw [IssuerRefSelectorLoop_eq]
    exact issuerRefSelector_sublist cr l
  · intro create cr l l' h
    rw [predicate.RBACBound, RBACBoundLoop_eq] at h
    exact boundPolicies_sublist h

/-- C7 witness: the amended statement applied to concrete inputs — a policy
with one true Ready condition passes Ready as a sublist, and an allowed
policy passes RBACBound as a sublist. -/
theorem C7_predicates_never_add_policies_witness :
    (predicate.ReadyLoop [exReady]).Sublist [exReady] ∧
    ([exPolA] : List cmpapi.CertificateRequestPolicy).Sublist [exPolA] := by
  constructor
  · exact (C7_predicates_never_add_policies.1 exCr [exReady]
      (predicate.ReadyLoop [exReady]) rfl).2 (by decide)
  · exact C7_predicates_never_add_policies.2.2.2 exAllow exCr [exPolA]
      [exPolA] rfl

/-- C3 counterexample: a policy whose readiness condition is not true (it has
no status conditions at all, so the Ready predicate would drop it) still
reaches evaluation in Review and even approves the request, refuting the
claim that the Decision Manager applies the readiness filter before the
other predicates. -/
theorem C3_review_skips_readiness_counterexample :
    exPolicy.status.conditions = [] ∧
    predicate.Ready exCr [exPolicy] = Except.ok [] ∧
    manager.Review ⟨Except.ok [exPolicy], exAllow⟩ [exNotDeniedEval] exCr =
      (⟨manager.Result.approved,
        "Approved by CertificateRequestPolicy: \"test-policy\""⟩, none) := by
  refine ⟨rfl, rfl, ?_⟩
  rfl

/-- C3 (amended): Review's selection stage applies only the issuer-reference
selector and the RBAC-bound filter; it never consults the readiness
condition (the Ready predicate exists but is not invoked), so replacing
every listed policy's status conditions — in particular making every policy
non-ready — does not change the outcome of Review, as long as the evaluators
themselves are insensitive to status conditions. -/
theorem C3_review_ignores_readiness :
    ∀ (conds : List cmpapi.CertificateRequestPolicyCondition)
      (items : List cmpapi.CertificateRequestPolicy)
      (create : authzv1.SubjectAccessReviewSpec → Except String Bool)
      (evals : List Evaluator) (cr : cmapi.CertificateRequest),
      (∀ e ∈ evals, ∀ p cr', e (withConditions conds p) cr' = e p cr') →
      manager.Review ⟨Except.ok (items.map (withConditions conds)), create⟩
          evals cr =
        manager.Review ⟨Except.ok items, create⟩ evals cr := by
  intro conds items create evals cr hE
  rw [manager.Review, manager.Review]
  simp only [List.length_map]
  by_cases hlen : items.length = 0
  · rw [if_pos hlen, if_pos hlen]
  · rw [if_neg hlen, if_neg hlen,
      issuerRefSelector_map_withConditions, boundPolicies_map_withConditions]
    cases hb : manager.boundPolicies create cr
        (manager.issuerRefSelector cr items) with
    | error err => rfl
    | ok policies =>
        simp only [Except.map, List.length_map]
        by_cases hp : policies.length = 0
        · rw [if_pos hp, if_pos hp]
        · rw [if_neg hp, if_neg hp]
          exact reviewPolicies_withConditions hE cr policies []

/-- C3 witness: the amended statement at a concrete input — stripping or
rewriting the conditions of a listed policy leaves Review's outcome
unchanged. -/
theorem C3_review_ignores_readiness_witness :
    manager.Review
        ⟨Except.ok ([exPolicy].map (withConditions [⟨"Ready", "False"⟩])),
          exAllow⟩ [exNotDeniedEval] exCr =
      manager.Review ⟨Except.ok [exPolicy], exAllow⟩ [exNotDeniedEval] exCr :=
  C3_review_ignores_readiness [⟨"Ready", "False"⟩] [exPolicy] exAllow
    [exNotDeniedEval] exCr
    (by
      intro e he p cr'
      rcases List.mem_singleton.mp he with rfl
      rfl)

/-- C6: the RBAC-bound filter issues exactly one authorization check per
candidate policy — a SubjectAccessReview for verb "use" on the policy's name
carrying the requester's username, groups, UID and extra attributes — keeps
exactly the policies whose check returns allowed, drops not-allowed ones
without error, and aborts on the first erroring check with the wrapped error
after issuing only the checks up to and including it. -/
theorem C6_rbac_bound_one_check_per_policy :
    ∀ (create : authzv1.SubjectAccessReviewSpec → Except String Bool)
      (cr : cmapi.CertificateRequest)
      (l : List cmpapi.CertificateRequestPolicy),
      (∀ nm : String, sarSpecFor cr nm =
        { user := cr.spec.username
          groups := cr.spec.groups
          extra := cr.spec.extra
          uid := cr.spec.uid
          resourceAttributes :=
            { group := "policy.cert-manager.io"
              resource := "certificaterequestpolicies"
              name := nm
              nspace := cr.nspace
              verb := "use" } })
      ∧ ((∀ p ∈ l, ∃ b, create (sarSpecFor cr p.name) = Except.ok b) →
          manager.boundPoliciesAux create cr l =
            (l.map (fun p => sarSpecFor cr p.name),
              Except.ok (l.filter (createAllowed create cr))))
      ∧ (∀ (l1 l2 : List cmpapi.CertificateRequestPolicy)
          (p : cmpapi.CertificateRequestPolicy) (err : String),
          l = l1 ++ p :: l2 →
          (∀ q ∈ l1, ∃ b, create (sarSpecFor cr q.name) = Except.ok b) →
          create (sarSpecFor cr p.name) = Except.error err →
          manager.boundPoliciesAux create cr l =
            (l1.map (fun q => sarSpecFor cr q.name) ++ [sarSpecFor cr p.name],
              Except.error ("failed to create subjectaccessreview: " ++ err))) := by
  intro create cr l
  refine ⟨fun nm => rfl, fun h => boundPoliciesAux_ok h, ?_⟩
  rintro l1 l2 p err rfl hpre herr
  exact boundPoliciesAux_error hpre herr

/-- C6 witness: the statement applied at concrete inputs — an allowed and a
refused policy produce one check each and keep only the allowed one, and an
erroring third policy aborts with the wrapped error after its check. -/
theorem C6_rbac_bound_one_check_per_policy_witness :
    manager.boundPoliciesAux exCreateMix exCr [exPolA, exPolB] =
      ([exPolA, exPolB].map (fun p => sarSpecFor exCr p.name),
        Except.ok
          ([exPolA, exPolB].filter (createAllowed exCreateMix exCr))) ∧
    manager.boundPoliciesAux exCreateMix exCr ([exPolA] ++ exPolC :: []) =
      ([exPolA].map (fun q => sarSpecFor exCr q.name) ++
          [sarSpecFor exCr exPolC.name],
        Except.error ("failed to create subjectaccessreview: " ++ "boom")) := by
  constructor
  · exact (C6_rbac_bound_one_check_per_policy exCreateMix exCr
      [exPolA, exPolB]).2.1
      (by
        intro p hp
        rcases List.mem_cons.mp hp with rfl | hp'
        · exact ⟨true, rfl⟩
        · rcases List.mem_singleton.mp hp' with rfl
          exact ⟨false, rfl⟩)
  · exact (C6_rbac_bound_one_check_per_policy exCreateMix exCr
      ([exPolA] ++ exPolC :: [])).2.2 [exPolA] [] exPolC "boom" rfl
      (by
        intro q hq
        rcases List.mem_singleton.mp hq with rfl
        exact ⟨true, rfl⟩)
      rfl

/-- C2: Review returns Unprocessed exactly when the candidate policy set
after selection is empty; with no policies listed at all the message says no
CertificateRequestPolicies exist, and with policies listed but none
surviving the selector and RBAC filters it says none are bound or
applicable — in both cases the result is Unprocessed, not Denied. -/
theorem C2_unprocessed_iff_no_candidates :
    ∀ (s : Client) (evals : List Evaluator) (cr : cmapi.CertificateRequest)
      (items survived : List cmpapi.CertificateRequestPolicy),
      s.list = Except.ok items →
      manager.boundPolicies s.create cr (manager.issuerRefSelector cr items) =
        Except.ok survived →
      (((manager.Review s evals cr).1.result = manager.Result.unprocessed) ↔
          survived = [])
      ∧ (items = [] →
          manager.Review s evals cr =
            (⟨manager.Result.unprocessed,
              "No CertificateRequestPolicies exist"⟩, none))
      ∧ (items ≠ [] → survived = [] →
          manager.Review s evals cr =
            (⟨manager.Result.unprocessed,
              "No CertificateRequestPolicies bound or applicable"⟩, none)) := by
  intro s evals cr items survived hlist hbound
  simp only [manager.Review, hlist]
  by_cases hlen : items.length = 0
  · have hitems : items = [] := List.length_eq_zero.mp hlen
    subst hitems
    have hsurv : survived = [] := by
      have : manager.boundPolicies s.create cr
          (manager.issuerRefSelector cr []) =
          Except.ok ([] : List cmpapi.CertificateRequestPolicy) := rfl
      rw [this] at hbound
      cases hbound
      rfl
    subst hsurv
    refine ⟨by simp, fun _ => by simp, fun h => absurd rfl h⟩
  · rw [if_neg hlen]
    simp only [hbound]
    by_cases hs : survived.length = 0
    · have hsurv : survived = [] := List.length_eq_zero.mp hs
      subst hsurv
      refine ⟨by simp, ?_, fun _ _ => by simp⟩
      intro h
      exact absurd (by rw [h]; rfl) hlen
    · rw [if_neg hs]
      refine ⟨?_, ?_, ?_⟩
      · constructor
        · intro h
          exact absurd h (reviewPolicies_ne_unprocessed survived [])
        · intro h
          rw [h] at hs
          exact absurd rfl hs
      · intro h
        exact absurd (by rw [h]; rfl) hlen
      · intro _ h
        rw [h] at hs
        exact absurd rfl hs

/-- C2 witness: the statement applied at concrete inputs — an empty policy
store gives the no-policies-exist Unprocessed, a store whose only policy is
not RBAC bound gives the none-bound-or-applicable Unprocessed. -/
theorem C2_unprocessed_iff_no_candidates_witness :
    manager.Review ⟨Except.ok [], exAllow⟩ [] exCr =
      (⟨manager.Result.unprocessed,
        "No CertificateRequestPolicies exist"⟩, none) ∧
    manager.Review
        ⟨Except.ok [exPolB], exCreateMix⟩ [] exCr =
      (⟨manager.Result.unprocessed,
        "No CertificateRequestPolicies bound or applicable"⟩, none) := by
  constructor
  · exact (C2_unprocessed_iff_no_candidates ⟨Except.ok [], exAllow⟩ [] exCr
      [] [] rfl rfl).2.1 rfl
  · exact (C2_unprocessed_iff_no_candidates
      ⟨Except.ok [exPolB], exCreateMix⟩ [] exCr [exPolB] [] rfl rfl).2.2
      (by intro h; cases h) rfl

/-- C1: under error-free evaluators on the surviving policies, Review returns
Approved exactly when at least one policy surviving selection has every
registered evaluator return NotDenied for it; and Review stops at the first
such policy in listing order, its Approved message naming that policy. -/
theorem C1_approved_iff_some_policy_fully_satisfied :
    ∀ (s : Client) (evals : List Evaluator) (cr : cmapi.CertificateRequest)
      (items survived : List cmpapi.CertificateRequestPolicy),
      s.list = Except.ok items →
      manager.boundPolicies s.create cr (manager.issuerRefSelector cr items) =
        Except.ok survived →
      (∀ p ∈ survived, ∀ e ∈ evals, ∃ r, e p cr = Except.ok r) →
      (((manager.Review s evals cr).1.result = manager.Result.approved) ↔
          ∃ p ∈ survived, ∀ e ∈ evals, ∀ r, e p cr = Except.ok r →
            r.result = approver.Result.notDenied)
      ∧ (∀ (pre post : List cmpapi.CertificateRequestPolicy)
          (p : cmpapi.CertificateRequestPolicy),
          survived = pre ++ p :: post →
          (∀ q ∈ pre, ¬ ∀ e ∈ evals, ∀ r, e q cr = Except.ok r →
            r.result = approver.Result.notDenied) →
          (∀ e ∈ evals, ∀ r, e p cr = Except.ok r →
            r.result = approver.Result.notDenied) →
          manager.Review s evals cr =
            (⟨manager.Result.approved,
              "Approved by CertificateRequestPolicy: \"" ++ p.name ++ "\""⟩,
              none)) := by
  intro s evals cr items survived hlist hbound hOk
  simp only [manager.Review, hlist]
  by_cases hlen : items.length = 0
  · have hitems : items = [] := List.length_eq_zero.mp hlen
    subst hitems
    have hsurv : survived = [] := by
      have : manager.boundPolicies s.create cr
          (manager.issuerRefSelector cr []) =
          Except.ok ([] : List cmpapi.CertificateRequestPolicy) := rfl
      rw [this] at hbound
      cases hbound
      rfl
    subst hsurv
    constructor
    · simp
    · intro pre post p hpre _ _
      exact absurd hpre.symm (List.append_ne_nil_of_right_ne_nil pre
        (List.cons_ne_nil p post))
  · rw [if_neg hlen]
    simp only [hbound]
    by_cases hs : survived.length = 0
    · have hsurv : survived = [] := List.length_eq_zero.mp hs
      subst hsurv
      constructor
      · simp
      · intro pre post p hpre _ _
        exact absurd hpre.symm (List.append_ne_nil_of_right_ne_nil pre
          (List.cons_ne_nil p post))
    · rw [if_neg hs]
      constructor
      · rw [reviewPolicies_approved_iff hOk []]
        constructor
        · rintro ⟨p, hp, hany⟩
          exact ⟨p, hp, (any_denied_false_iff (hOk p hp)).mp hany⟩
        · rintro ⟨p, hp, hall⟩
          exact ⟨p, hp, (any_denied_false_iff (hOk p hp)).mpr hall⟩
      · rintro pre post p rfl hpre hp
        have hmemp : p ∈ pre ++ p :: post :=
          List.mem_append_right pre (List.mem_cons_self p post)
        have hOkp : ∀ e ∈ evals, ∃ r, e p cr = Except.ok r := hOk p hmemp
        have hany : evals.any (fun e => deniedOf (e p cr)) = false :=
          (any_denied_false_iff hOkp).mpr hp
        have hpEval : manager.runEvaluators p cr evals =
            Except.ok (false, evals.map (fun e => msgOf (e p cr))) := by
          rw [runEvaluators_ok hOkp, hany]
        have hpreEval : ∀ q ∈ pre, ∃ m,
            manager.runEvaluators q cr evals = Except.ok (true, m) := by
          intro q hq
          have hOkq : ∀ e ∈ evals, ∃ r, e q cr = Except.ok r :=
            hOk q (List.mem_append_left _ hq)
          cases hq' : evals.any (fun e => deniedOf (e q cr)) with
          | false =>
              exact absurd ((any_denied_false_iff hOkq).mp hq') (hpre q hq)
          | true =>
              exact ⟨_, by rw [runEvaluators_ok hOkq, hq']⟩
        exact reviewPolicies_approved hpreEval hpEval []

/-- C1 witness: the statement applied at a concrete input — with one bound
policy and one never-denying evaluator, Review approves naming that
policy. -/
theorem C1_approved_iff_some_policy_fully_satisfied_witness :
    manager.Review ⟨Except.ok [exPolA], exAllow⟩ [exNotDeniedEval] exCr =
      (⟨manager.Result.approved,
        "Approved by CertificateRequestPolicy: \"" ++ "a-pol" ++ "\""⟩,
        none) :=
  (C1_approved_iff_some_policy_fully_satisfied
      ⟨Except.ok [exPolA], exAllow⟩ [exNotDeniedEval] exCr [exPolA] [exPolA]
      rfl rfl
      (by
        intro p hp e he
        rcases List.mem_singleton.mp he with rfl
        exact ⟨⟨approver.Result.notDenied, ""⟩, rfl⟩)).2
    [] [] exPolA rfl
    (by intro q hq; cases hq)
    (by
      intro e he r hr
      rcases List.mem_singleton.mp he with rfl
      cases hr
      rfl)

/-- C5: any error aborts Review at once with the empty ReviewResponse and the
error — a listing error is returned as is, a bound-policies error is wrapped
with the failed-to-determine-bound-policies prefix, and the first evaluator
error aborts even when earlier policies were consulted; within one policy
every evaluator still runs after a denial (all messages are collected and
denials only set a flag), but the first erroring evaluator stops the loop at
once. -/
theorem C5_errors_abort_review :
    (∀ (s : Client) (evals : List Evaluator) (cr : cmapi.CertificateRequest)
      (err : String), s.list = Except.error err →
      manager.Review s evals cr = (⟨manager.Result.unset, ""⟩, some err))
    ∧ (∀ (s : Client) (evals : List Evaluator)
        (cr : cmapi.CertificateRequest)
        (items : List cmpapi.CertificateRequestPolicy) (err : String),
        s.list = Except.ok items → items ≠ [] →
        manager.boundPolicies s.create cr
          (manager.issuerRefSelector cr items) = Except.error err →
        manager.Review s evals cr =
          (⟨manager.Result.unset, ""⟩,
            some ("failed to determine bound policies: " ++ err)))
    ∧ (∀ (s : Client) (evals : List Evaluator)
        (cr : cmapi.CertificateRequest)
        (items survived pre post : List cmpapi.CertificateRequestPolicy)
        (p : cmpapi.CertificateRequestPolicy) (err : String),
        s.list = Except.ok items →
        manager.boundPolicies s.create cr
          (manager.issuerRefSelector cr items) = Except.ok survived →
        survived = pre ++ p :: post →
        (∀ q ∈ pre, ∃ m, manager.runEvaluators q cr evals =
          Except.ok (true, m)) →
        manager.runEvaluators p cr evals = Except.error err →
        manager.Review s evals cr =
          (⟨manager.Result.unset, ""⟩, some err))
    ∧ (∀ (evals : List Evaluator) (p : cmpapi.CertificateRequestPolicy)
        (cr : cmapi.CertificateRequest),
        (∀ e ∈ evals, ∃ r, e p cr = Except.ok r) →
        manager.runEvaluators p cr evals =
          Except.ok (evals.any (fun e => deniedOf (e p cr)),
            evals.map (fun e => msgOf (e p cr))))
    ∧ (∀ (epre epost : List Evaluator) (ev : Evaluator)
        (p : cmpapi.CertificateRequestPolicy)
        (cr : cmapi.CertificateRequest) (err : String),
        (∀ e ∈ epre, ∃ r, e p cr = Except.ok r) →
        ev p cr = Except.error err →
        manager.runEvaluators p cr (epre ++ ev :: epost) =
          Except.error err) := by
  refine ⟨?_, ?_, ?_, ?_, ?_⟩
  · intro s evals cr err h
    simp only [manager.Review, h]
  · intro s evals cr items err hlist hne hbound
    simp only [manager.Review, hlist]
    rw [if_neg (fun h => hne (List.length_eq_zero.mp h))]
    simp only [hbound]
  · intro s evals cr items survived pre post p err hlist hbound hsplit
      hpre hp
    simp only [manager.Review, hlist]
    by_cases hlen : items.length = 0
    · exfalso
      have hitems : items = [] := List.length_eq_zero.mp hlen
      subst hitems
      have : manager.boundPolicies s.create cr
          (manager.issuerRefSelector cr []) =
          Except.ok ([] : List cmpapi.CertificateRequestPolicy) := rfl
      rw [this] at hbound
      cases hbound
      exact List.append_ne_nil_of_right_ne_nil pre
        (List.cons_ne_nil p post) hsplit.symm
    · rw [if_neg hlen]
      simp only [hbound]
      subst hsplit
      rw [if_neg (by
        intro h
        exact List.append_ne_nil_of_right_ne_nil pre
          (List.cons_ne_nil p post) (List.length_eq_zero.mp h))]
      exact reviewPolicies_error hpre hp []
  · intro evals p cr h
    exact runEvaluators_ok h
  · intro epre epost ev p cr err hpre he
    exact runEvaluators_error hpre he

/-- C5 witness: the statement applied at concrete inputs — a listing error, a
failing authorization check, and an erroring evaluator each abort Review
with the empty response and the (wrapped) error, and within one policy a
denying evaluator does not stop later evaluators from contributing their
messages. -/
theorem C5_errors_abort_review_witness :
    manager.Review ⟨Except.error "list-blew-up", exAllow⟩ [] exCr =
      (⟨manager.Result.unset, ""⟩, some "list-blew-up") ∧
    manager.Review ⟨Except.ok [exPolC], exCreateMix⟩ [] exCr =
      (⟨manager.Result.unset, ""⟩,
        some ("failed to determine bound policies: " ++
          ("failed to create subjectaccessreview: " ++ "boom"))) ∧
    manager.Review ⟨Except.ok [exPolA], exAllow⟩ [exErrEval] exCr =
      (⟨manager.Result.unset, ""⟩, some "evaluator-exploded") ∧
    manager.runEvaluators exPolA exCr [exDenyEval, exNotDeniedEval] =
      Except.ok
        (([exDenyEval, exNotDeniedEval] : List Evaluator).any
            (fun e => deniedOf (e exPolA exCr)),
          ([exDenyEval, exNotDeniedEval] : List Evaluator).map
            (fun e => msgOf (e exPolA exCr))) ∧
    manager.runEvaluators exPolA exCr ([exDenyEval] ++ exErrEval :: []) =
      Except.error "evaluator-exploded" := by
  refine ⟨?_, ?_, ?_, ?_, ?_⟩
  · exact C5_errors_abort_review.1 ⟨Except.error "list-blew-up", exAllow⟩
      [] exCr "list-blew-up" rfl
  · exact C5_errors_abort_review.2.1 ⟨Except.ok [exPolC], exCreateMix⟩
      [] exCr [exPolC] ("failed to create subjectaccessreview: " ++ "boom")
      rfl (by intro h; cases h) rfl
  · exact C5_errors_abort_review.2.2.1 ⟨Except.ok [exPolA], exAllow⟩
      [exErrEval] exCr [exPolA] [exPolA] [] [] exPolA "evaluator-exploded"
      rfl rfl rfl (by intro q hq; cases hq) rfl
  · exact C5_errors_abort_review.2.2.2.1 [exDenyEval, exNotDeniedEval]
      exPolA exCr
      (by
        intro e he
        rcases List.mem_cons.mp he with rfl | he'
        · exact ⟨⟨approver.Result.denied, "bad-" ++ "a-pol"⟩, rfl⟩
        · rcases List.mem_singleton.mp he' with rfl
          exact ⟨⟨approver.Result.notDenied, ""⟩, rfl⟩)
  · exact C5_errors_abort_review.2.2.2.2 [exDenyEval] [] exErrEval exPolA
      exCr "evaluator-exploded"
      (by
        intro e he
        rcases List.mem_singleton.mp he with rfl
        exact ⟨⟨approver.Result.denied, "bad-" ++ "a-pol"⟩, rfl⟩)
      rfl

/-- The denied response depends on its entries only through their stable
sort. -/
lemma deniedResponse_congr {l1 l2 : List manager.policyMessage}
    (h : manager.sortPolicyMessages l1 = manager.sortPolicyMessages l2) :
    manager.deniedResponse l1 = manager.deniedResponse l2 := by
  unfold manager.deniedResponse
  rw [h]

/-- Closed form of Review when every listed policy is denied by some
evaluator, no authorization check errors and no evaluator errors. -/
lemma review_all_denied_eq
    (create : authzv1.SubjectAccessReviewSpec → Except String Bool)
    (evals : List Evaluator) (cr : cmapi.CertificateRequest)
    {items : List cmpapi.CertificateRequestPolicy}
    (hC : ∀ p ∈ items, ∃ b, create (sarSpecFor cr p.name) = Except.ok b)
    (hOk : ∀ p ∈ items, ∀ e ∈ evals, ∃ r, e p cr = Except.ok r)
    (hDen : ∀ p ∈ items, evals.any (fun e => deniedOf (e p cr)) = true) :
    manager.Review ⟨Except.ok items, create⟩ evals cr =
      (if items.length = 0 then
        (⟨manager.Result.unprocessed,
          "No CertificateRequestPolicies exist"⟩, none)
      else if ((manager.issuerRefSelector cr items).filter
          (createAllowed create cr)).length = 0 then
        (⟨manager.Result.unprocessed,
          "No CertificateRequestPolicies bound or applicable"⟩, none)
      else manager.deniedResponse
        (((manager.issuerRefSelector cr items).filter
          (createAllowed create cr)).map (mkPolicyMessage evals cr))) := by
  simp only [manager.Review]
  by_cases hlen : items.length = 0
  · rw [if_pos hlen, if_pos hlen]
  · rw [if_neg hlen, if_neg hlen]
    have hsel : ∀ p ∈ manager.issuerRefSelector cr items, p ∈ items :=
      fun p hp => (issuerRefSelector_sublist cr items).subset hp
    have hbound := boundPolicies_ok (fun p hp => hC p (hsel p hp))
    simp only [hbound]
    by_cases hs : ((manager.issuerRefSelector cr items).filter
        (createAllowed create cr)).length = 0
    · rw [if_pos hs, if_pos hs]
    · rw [if_neg hs, if_neg hs]
      have hsurvmem : ∀ p ∈ (manager.issuerRefSelector cr items).filter
          (createAllowed create cr), p ∈ items :=
        fun p hp => hsel p ((List.filter_sublist _).subset hp)
      rw [reviewPolicies_denied
        (fun p hp => by
          rw [runEvaluators_ok (hOk p (hsurvmem p hp)),
            hDen p (hsurvmem p hp)]) []]
      rw [List.nil_append]

/-- C4: when every listed policy is denied by some evaluator (with no
authorization or evaluator errors) and some policies survive selection,
Review returns Denied with a message aggregating every surviving policy's
comma-joined evaluator messages, with policies stably sorted by name and
each entry bracketed as policy-name colon messages; and for policies with
pairwise distinct names the whole response is the same whatever order the
listing collaborator returns them in. -/
theorem C4_denied_aggregation_deterministic :
    ∀ (create : authzv1.SubjectAccessReviewSpec → Except String Bool)
      (evals : List Evaluator) (cr : cmapi.CertificateRequest)
      (items items2 : List cmpapi.CertificateRequestPolicy),
      items.Perm items2 →
      ((items.map (fun p => p.name)).Nodup) →
      (∀ p ∈ items, ∃ b, create (sarSpecFor cr p.name) = Except.ok b) →
      (∀ p ∈ items, ∀ e ∈ evals, ∃ r, e p cr = Except.ok r) →
      (∀ p ∈ items, evals.any (fun e => deniedOf (e p cr)) = true) →
      ((((manager.issuerRefSelector cr items).filter
          (createAllowed create cr)) ≠ [] →
        manager.Review ⟨Except.ok items, create⟩ evals cr =
          (⟨manager.Result.denied,
            "No policy approved this request: " ++
              String.intercalate " "
                ((manager.sortPolicyMessages
                  (((manager.issuerRefSelector cr items).filter
                    (createAllowed create cr)).map
                    (mkPolicyMessage evals cr))).map
                  (fun pm => "[" ++ pm.name ++ ": " ++ pm.message ++ "]"))⟩,
            none))
      ∧ manager.Review ⟨Except.ok items, create⟩ evals cr =
          manager.Review ⟨Except.ok items2, create⟩ evals cr) := by
  intro create evals cr items items2 hperm hNodup hC hOk hDen
  have hC2 : ∀ p ∈ items2, ∃ b, create (sarSpecFor cr p.name) = Except.ok b :=
    fun p hp => hC p (hperm.mem_iff.mpr hp)
  have hOk2 : ∀ p ∈ items2, ∀ e ∈ evals, ∃ r, e p cr = Except.ok r :=
    fun p hp => hOk p (hperm.mem_iff.mpr hp)
  have hDen2 : ∀ p ∈ items2, evals.any (fun e => deniedOf (e p cr)) = true :=
    fun p hp => hDen p (hperm.mem_iff.mpr hp)
  constructor
  · intro hne
    have hlen : ¬ items.length = 0 := by
      intro h
      apply hne
      rw [List.length_eq_zero.mp h]
      rfl
    have hs : ¬ ((manager.issuerRefSelector cr items).filter
        (createAllowed create cr)).length = 0 :=
      fun h => hne (List.length_eq_zero.mp h)
    rw [review_all_denied_eq create evals cr hC hOk hDen, if_neg hlen,
      if_neg hs]
    rfl
  · rw [review_all_denied_eq create evals cr hC hOk hDen,
      review_all_denied_eq create evals cr hC2 hOk2 hDen2]
    have hlen12 : items.length = items2.length := hperm.length_eq
    have hsurvperm : ((manager.issuerRefSelector cr items).filter
        (createAllowed create cr)).Perm
        ((manager.issuerRefSelector cr items2).filter
          (createAllowed create cr)) := by
      rw [issuerRefSelector_eq_filter, issuerRefSelector_eq_filter]
      exact (hperm.filter _).filter _
    have hsl := hsurvperm.length_eq
    by_cases hl : items.length = 0
    · rw [if_pos hl, if_pos (hlen12.symm.trans hl)]
    · rw [if_neg hl, if_neg (fun h => hl (hlen12.trans h))]
      by_cases hs : ((manager.issuerRefSelector cr items).filter
          (createAllowed create cr)).length = 0
      · rw [if_pos hs, if_pos (hsl.symm.trans hs)]
      · rw [if_neg hs, if_neg (fun h => hs (hsl.trans h))]
        apply deniedResponse_congr
        apply sortPolicyMessages_eq_of_perm (hsurvperm.map _)
        rw [List.map_map]
        have hcomp : ((fun pm => pm.name) ∘ mkPolicyMessage evals cr) =
            (fun p : cmpapi.CertificateRequestPolicy => p.name) := rfl
        rw [hcomp]
        exact hNodup.sublist
          (((List.filter_sublist _).trans
            (issuerRefSelector_sublist cr items)).map _)

/-- C4 witness: the statement applied at a concrete input — two denied
policies listed in either order produce the identical sorted, bracketed
Denied aggregate. -/
theorem C4_denied_aggregation_deterministic_witness :
    manager.Review ⟨Except.ok [exPolB, exPolA], exAllow⟩ [exDenyEval] exCr =
      manager.Review ⟨Except.ok [exPolA, exPolB], exAllow⟩ [exDenyEval]
        exCr :=
  (C4_denied_aggregation_deterministic exAllow [exDenyEval] exCr
    [exPolB, exPolA] [exPolA, exPolB]
    (by decide)
    (by decide)
    (by intro p hp; exact ⟨true, rfl⟩)
    (by
      intro p hp e he
      rcases List.mem_singleton.mp he with rfl
      exact ⟨⟨approver.Result.denied, "bad-" ++ p.name⟩, rfl⟩)
    (by
      intro p hp
      rcases List.mem_cons.mp hp with rfl | hp'
      · decide
      · rcases List.mem_singleton.mp hp' with rfl
        decide)).2

/-- C9: the attribute evaluator returns NotDenied with an empty message for
every request when the policy sets no constraints; when the collected
violation list is non-empty it returns Denied with the single message
joining one entry per violated field (field path, offending value, allowed
value); and on the test's multi-violation request it enumerates all eight
violated fields, not only the first. -/
theorem C9_attribute_evaluator_behavior :
    (∀ (p : cmpapi.CertificateRequestPolicy) (cr : cmapi.CertificateRequest),
      p.spec.allowedCommonName = none → p.spec.minDuration = none →
      p.spec.allowedDNSNames = none → p.spec.allowedIPAddresses = none →
      p.spec.allowedURIs = none → p.spec.allowedIsCA = none →
      p.spec.allowedPrivateKey = none → p.spec.allowedIssuers = none →
      attributeEvaluator.Evaluate p cr = ⟨approver.Result.notDenied, ""⟩)
    ∧ (∀ (p : cmpapi.CertificateRequestPolicy)
        (cr : cmapi.CertificateRequest),
        attributeEvaluator.attributeViolations p.spec cr.spec ≠ [] →
        attributeEvaluator.Evaluate p cr =
          ⟨approver.Result.denied,
            String.intercalate ", "
              ((attributeEvaluator.attributeViolations p.spec cr.spec).map
                attributeEvaluator.formatViolation)⟩)
    ∧ ((attributeEvaluator.attributeViolations exPolViol.spec
        exCrViol.spec).map (fun v => v.path) =
        ["spec.allowedCommonName", "spec.minDuration",
         "spec.allowedDNSNames", "spec.allowedIPAddresses",
         "spec.allowedURIs", "spec.allowedIssuers", "spec.allowedIsCA",
         "spec.allowedPrivateKey.allowedAlgorithm"])
    ∧ attributeEvaluator.Evaluate exPolViol exCrViol =
        ⟨approver.Result.denied,
          "spec.allowedCommonName: Invalid value: test: not-test, spec.minDuration: Invalid value: 100: 200, spec.allowedDNSNames: Invalid value: [foo.bar example.com]: [not-foo.bar], spec.allowedIPAddresses: Invalid value: [1.2.3.4]: [5.6.7.8], spec.allowedURIs: Invalid value: [hello.world]: [world.hello], spec.allowedIssuers: Invalid value: (my-issuer my-kind my-group): [(not-my-issuer not-my-kind not-my-group)], spec.allowedIsCA: Invalid value: true: false, spec.allowedPrivateKey.allowedAlgorithm: Invalid value: RSA: ECDSA"⟩ := by
  refine ⟨?_, ?_, ?_, ?_⟩
  · intro p cr h1 h2 h3 h4 h5 h6 h7 h8
    have hv : attributeEvaluator.attributeViolations p.spec cr.spec = [] := by
      unfold attributeEvaluator.attributeViolations
      simp only [h1, h2, h3, h4, h5, h6, h7, h8]
      rfl
    unfold attributeEvaluator.Evaluate
    rw [hv]
    rfl
  · intro p cr h
    cases hv : attributeEvaluator.attributeViolations p.spec cr.spec with
    | nil => exact absurd hv h
    | cons v vs =>
        unfold attributeEvaluator.Evaluate
        rw [hv]
        rfl
  · rfl
  · rfl

/-- C9 witness: the statement applied at concrete inputs — the
no-constraints policy yields NotDenied with an empty message, and the
multi-violation pair yields the Denied aggregate of all its violation
entries. -/
theorem C9_attribute_evaluator_behavior_witness :
    attributeEvaluator.Evaluate exPolicy exCr =
      ⟨approver.Result.notDenied, ""⟩ ∧
    attributeEvaluator.Evaluate exPolViol exCrViol =
      ⟨approver.Result.denied,
        String.intercalate ", "
          ((attributeEvaluator.attributeViolations exPolViol.spec
            exCrViol.spec).map attributeEvaluator.formatViolation)⟩ := by
  constructor
  · exact C9_attribute_evaluator_behavior.1 exPolicy exCr
      rfl rfl rfl rfl rfl rfl rfl rfl
  · exact C9_attribute_evaluator_behavior.2.1 exPolViol exCrViol
      (by decide)

end Theorems

end PolicyApprover
